import Mathlib

/-!
Verification of the calendar-aware series-extension engine of the
financial-indicators repository: the business-day calendar
(workdays.py) and the per-index expansion strategies
(indices_expander.py), shallowly embedded in Lean 4.

Python exceptions are embedded with `Except PyError`; `datetime.date`
values are embedded as plain `(year, month, day)` triples of naturals,
with validity as a separate predicate (every Python date object is
valid by construction, so theorems quantifying over Python dates carry
validity hypotheses).  Python tuple/list slicing is embedded with its
negative-index semantics.
-/

/-- The Python exceptions raised by the embedded code. -/
inductive PyError where
  | valueError
  | lookupError
  | assertionError
  | attributeError
  | indexError
  | overflowError
  deriving DecidableEq, Repr

/-- Embedding of `datetime.date`: a year, month, day triple. -/
structure Date where
  year : Nat
  month : Nat
  day : Nat
  deriving DecidableEq, Repr, Inhabited

/-- Python `date` comparison: lexicographic on (year, month, day). -/
def dateLtB (a b : Date) : Bool :=
  a.year < b.year ||
    (a.year == b.year &&
      (a.month < b.month || (a.month == b.month && a.day < b.day)))

/-- Python `<=` on dates. -/
def dateLeB (a b : Date) : Bool :=
  dateLtB a b || a == b

/-- Gregorian leap-year rule used by `datetime`. -/
def isLeapYear (y : Nat) : Bool :=
  y % 4 == 0 && (y % 100 != 0 || y % 400 == 0)

/-- Number of days of month `m` of year `y` (for 1 <= m <= 12). -/
def daysInMonth (y m : Nat) : Nat :=
  if m = 2 then (if isLeapYear y then 29 else 28)
  else if m = 4 || m = 6 || m = 9 || m = 11 then 30
  else 31

/-- Validity of a (year, month, day) triple as a `datetime.date`:
exactly the triples the `datetime.date` constructor accepts
(`MINYEAR = 1`, `MAXYEAR = 9999`). -/
def dateValidB (y m d : Nat) : Bool :=
  1 ≤ y && y ≤ 9999 && 1 ≤ m && m ≤ 12 && 1 ≤ d && d ≤ daysInMonth y m

/-- Validity of a `Date` value. -/
def Date.validB (dt : Date) : Bool :=
  dateValidB dt.year dt.month dt.day

/-- The wrapping calendar successor, used to state one-day bounds.  The
Python date addition `d + datetime.timedelta(days=1)` is embedded by
`dateAddOneDay` below, which raises OverflowError at `date.max`. -/
def addOneDay (dt : Date) : Date :=
  if dt.day < daysInMonth dt.year dt.month then
    { dt with day := dt.day + 1 }
  else if dt.month < 12 then
    { year := dt.year, month := dt.month + 1, day := 1 }
  else
    { year := dt.year + 1, month := 1, day := 1 }

/-- `d + datetime.timedelta(days=1)`: the next calendar day, raising
OverflowError when the result would pass `datetime.date.max`
(9999-12-31), exactly as `datetime.date.__add__` does on valid
dates. -/
def dateAddOneDay (dt : Date) : Except PyError Date :=
  if dateLtB dt ⟨9999, 12, 31⟩ then .ok (addOneDay dt)
  else .error .overflowError

/-- `IndicesExpander.get_next_month`: successor month in 1..12, raising
`ValueError` outside that range.  Python computes `(month + 1) % 12 or 12`. -/
def get_next_month (month : Nat) : Except PyError Nat :=
  if ¬ (1 ≤ month ∧ month ≤ 12) then .error .valueError
  else .ok (if (month + 1) % 12 = 0 then 12 else (month + 1) % 12)

/-- `IndicesExpander.is_same_date_month_ahead`: true iff `date2` equals
`date1` advanced by exactly one month at the same day-of-month; the
`datetime.date` constructor call is wrapped in a `try` whose
`ValueError` yields `False`. -/
def is_same_date_month_ahead (date1 date2 : Date) : Except PyError Bool := do
  let next_month ← get_next_month date1.month
  let next_year := if next_month ≠ 1 then date1.year else date1.year + 1
  if dateValidB next_year next_month date1.day then
    pure (({ year := next_year, month := next_month, day := date1.day } : Date) == date2)
  else
    pure false

/-- `IndicesExpander._get_next_days`: the Strategy B next-pair rule.
Raises `ValueError` when `start_date >= end_date` and when no
advancement rule applies. -/
def get_next_days (start_date end_date : Date) :
    Except PyError (Date × Date) := do
  if ¬ dateLtB start_date end_date then .error .valueError
  else do
    let same ← is_same_date_month_ahead start_date end_date
    if same then do
      let s ← dateAddOneDay start_date
      let t ← dateAddOneDay end_date
      pure (s, t)
    else if start_date.day = 1 then do
      let t ← dateAddOneDay end_date
      pure (start_date, t)
    else if end_date.day = 1 then do
      let s ← dateAddOneDay start_date
      pure (s, end_date)
    else
      .error .valueError

/-- Embedding of `bcb_api.IndicesRecord` for the indices handled by the
expander: a date, an optional period-end date (present only for
three-field indices such as TR), and a numeric value. -/
structure IndicesRecord where
  date : Date
  end_date : Option Date := none
  value : Rat
  deriving DecidableEq, Repr, Inhabited

/-- Decidable equality of embedded Python results, for evaluating the
embedded functions on concrete inputs. -/
instance {e a : Type} [DecidableEq e] [DecidableEq a] :
    DecidableEq (Except e a) := fun x y =>
  match x, y with
  | .error u, .error v =>
      if h : u = v then .isTrue (by rw [h])
      else .isFalse (fun hc => h (by injection hc))
  | .ok u, .ok v =>
      if h : u = v then .isTrue (by rw [h])
      else .isFalse (fun hc => h (by injection hc))
  | .error _, .ok _ => .isFalse (fun hc => Except.noConfusion hc)
  | .ok _, .error _ => .isFalse (fun hc => Except.noConfusion hc)

/-- Expected calendar size: `Workdays._number_workdays`. -/
def number_workdays : Nat := 19593

/-- `Workdays._load_workdays` after CSV parsing: asserts the number of
loaded dates equals `number_workdays`, raising `AssertionError`
otherwise, and returns the loaded dates unchanged (as a tuple). -/
def load_workdays (rows : List Date) : Except PyError (List Date) :=
  if rows.length = number_workdays then .ok rows else .error .assertionError

/-- The `while lo < hi` loop of `bisect.bisect_left` (CPython): binary
search for the leftmost insertion point of `x` in `a` within
`[lo, hi)`.  The extra fuel argument only bounds the number of loop
iterations (the interval shrinks at every step, so `hi - lo` iterations
always suffice and the fuel is never exhausted). -/
def bisectLeftLoop (a : List Date) (x : Date) : Nat → Nat → Nat → Nat
  | 0, lo, _ => lo
  | fuel + 1, lo, hi =>
    if lo < hi then
      let mid := (lo + hi) / 2
      if dateLtB (a.getD mid default) x then
        bisectLeftLoop a x fuel (mid + 1) hi
      else
        bisectLeftLoop a x fuel lo mid
    else lo

/-- `bisect.bisect_left(a, x)`. -/
def bisect_left (a : List Date) (x : Date) : Nat :=
  bisectLeftLoop a x a.length 0 a.length

/-- `Workdays.binary_search`: index of `element` in the sorted `array`,
raising `LookupError` when `element` is not present. -/
def binary_search (array : List Date) (element : Date) : Except PyError Nat :=
  let index := bisect_left array element
  if index ≠ array.length ∧ array.getD index default = element then .ok index
  else .error .lookupError

/-- Python sequence slicing `l[a:b]` (step 1), including the
negative-index wrap-around semantics. -/
def pySlice (l : List Date) (a b : Int) : List Date :=
  let n : Int := l.length
  let a2 := if a < 0 then max (n + a) 0 else min a n
  let b2 := if b < 0 then max (n + b) 0 else min b n
  (l.drop a2.toNat).take (b2 - a2).toNat

/-- `Workdays.get_extra_workdays`: the `extra_days` calendar members
directly after `start_date`, via `binary_search` and a slice; the
`LookupError` of the search is re-raised. -/
def get_extra_workdays (workdays : List Date) (start_date : Date)
    (extra_days : Int) : Except PyError (List Date) :=
  match binary_search workdays start_date with
  | .error _ => .error .lookupError
  | .ok date_index =>
      let first_index : Int := date_index + 1
      let second_index : Int := first_index + extra_days
      .ok (pySlice workdays first_index second_index)

/-- `IndicesExpander._daily_workday_indices_expander` (Strategy A): on a
non-empty input, appends one record per extra workday after the last
record, all carrying the last value. -/
def daily_workday_indices_expander (workdays : List Date)
    (financial_records : List IndicesRecord) :
    Except PyError (List IndicesRecord) :=
  match financial_records.getLast? with
  | none => .ok []
  | some last => do
      let extra_workdays ← get_extra_workdays workdays last.date 30
      let extra_records := extra_workdays.map
        (fun day => { date := day, value := last.value : IndicesRecord })
      pure (financial_records ++ extra_records)

/-- The 30-iteration cursor loop of
`IndicesExpander._daily_three_field_indices_expander`: each step takes
the next (date, end_date) pair and emits a record carrying `value`. -/
def threeFieldLoop (value : Rat) :
    Nat → Date → Date → Except PyError (List IndicesRecord)
  | 0, _, _ => .ok []
  | n + 1, date, end_date => do
      let next ← get_next_days date end_date
      let rest ← threeFieldLoop value n next.1 next.2
      pure ({ date := next.1, end_date := some next.2, value := value } :: rest)

/-- `IndicesExpander._daily_three_field_indices_expander` (Strategy B):
on a non-empty input, appends 30 records obtained by iterating the
next-pair rule from the last record, all carrying the last value.
Accessing the missing `end_date` attribute raises `AttributeError`. -/
def daily_three_field_indices_expander
    (financial_records : List IndicesRecord) :
    Except PyError (List IndicesRecord) :=
  match financial_records.getLast? with
  | none => .ok []
  | some last =>
      match last.end_date with
      | none => .error .attributeError
      | some e => do
          let extra_records ← threeFieldLoop last.value 30 last.date e
          pure (financial_records ++ extra_records)

/-- `IndicesExpander._ipca_from_15_expander` (Strategy C): on a
non-empty input, appends one record dated the first day of the next
month; its value comes from the head of the proxy (IPCA-15) series when
that head is dated the first day of the last month, and otherwise
repeats the last value.  `proxy` stands for the records the external
`FinancialIndicesApi` collaborator returns for series 7478 from
`last_date` on. -/
def ipca_from_15_expander (proxy : List IndicesRecord)
    (financial_records : List IndicesRecord) :
    Except PyError (List IndicesRecord) :=
  match financial_records.getLast? with
  | none => .ok []
  | some last => do
      let last_date : Date := { last.date with day := 1 }
      let last_value := last.value
      let next_month ← get_next_month last_date.month
      let next_year := if next_month ≠ 1 then last_date.year else last_date.year + 1
      if dateValidB next_year next_month last_date.day then
        let new_date : Date := { year := next_year, month := next_month, day := last_date.day }
        let record : IndicesRecord :=
          match proxy.head? with
          | some p =>
              if p.date = last_date then { date := new_date, value := p.value }
              else { date := new_date, value := last_value }
          | none => { date := new_date, value := last_value }
        pure (financial_records ++ [record])
      else
        .error .valueError

/-- A small concrete stand-in calendar (35 consecutive dates starting
2001-01-01), used to instantiate the generic calendar theorems on
explicit inputs. -/
def demoCalendar : List Date :=
  (List.range 31).map (fun i => ⟨2001, 1, i + 1⟩) ++
    (List.range 4).map (fun i => ⟨2001, 2, i + 1⟩)

/-- The 30 successive cursor pairs produced by the next-pair rule from
the TR pair (1993-01-28, 1993-02-28), used to instantiate the Strategy
B theorem on an explicit input. -/
def trPairs : List (Date × Date) :=
  [(⟨1993, 1, 29⟩, ⟨1993, 3, 1⟩),
   (⟨1993, 1, 30⟩, ⟨1993, 3, 1⟩),
   (⟨1993, 1, 31⟩, ⟨1993, 3, 1⟩),
   (⟨1993, 2, 1⟩, ⟨1993, 3, 1⟩),
   (⟨1993, 2, 2⟩, ⟨1993, 3, 2⟩),
   (⟨1993, 2, 3⟩, ⟨1993, 3, 3⟩),
   (⟨1993, 2, 4⟩, ⟨1993, 3, 4⟩),
   (⟨1993, 2, 5⟩, ⟨1993, 3, 5⟩),
   (⟨1993, 2, 6⟩, ⟨1993, 3, 6⟩),
   (⟨1993, 2, 7⟩, ⟨1993, 3, 7⟩),
   (⟨1993, 2, 8⟩, ⟨1993, 3, 8⟩),
   (⟨1993, 2, 9⟩, ⟨1993, 3, 9⟩),
   (⟨1993, 2, 10⟩, ⟨1993, 3, 10⟩),
   (⟨1993, 2, 11⟩, ⟨1993, 3, 11⟩),
   (⟨1993, 2, 12⟩, ⟨1993, 3, 12⟩),
   (⟨1993, 2, 13⟩, ⟨1993, 3, 13⟩),
   (⟨1993, 2, 14⟩, ⟨1993, 3, 14⟩),
   (⟨1993, 2, 15⟩, ⟨1993, 3, 15⟩),
   (⟨1993, 2, 16⟩, ⟨1993, 3, 16⟩),
   (⟨1993, 2, 17⟩, ⟨1993, 3, 17⟩),
   (⟨1993, 2, 18⟩, ⟨1993, 3, 18⟩),
   (⟨1993, 2, 19⟩, ⟨1993, 3, 19⟩),
   (⟨1993, 2, 20⟩, ⟨1993, 3, 20⟩),
   (⟨1993, 2, 21⟩, ⟨1993, 3, 21⟩),
   (⟨1993, 2, 22⟩, ⟨1993, 3, 22⟩),
   (⟨1993, 2, 23⟩, ⟨1993, 3, 23⟩),
   (⟨1993, 2, 24⟩, ⟨1993, 3, 24⟩),
   (⟨1993, 2, 25⟩, ⟨1993, 3, 25⟩),
   (⟨1993, 2, 26⟩, ⟨1993, 3, 26⟩),
   (⟨1993, 2, 27⟩, ⟨1993, 3, 27⟩)]

/-- The trailing segments of the synthetic TR records corresponding to
`trPairs`. -/
def trRecords (k : Nat) : List IndicesRecord :=
  (trPairs.drop k).map (fun p => { date := p.1, end_date := some p.2, value := 1 })

/-- Transparent spec-side predicate: `e` is exactly one calendar month
after `d` at the same day-of-month (December wrapping to January of the
next year).  For valid dates this coincides with what
`is_same_date_month_ahead` computes. -/
def oneMonthAheadB (d e : Date) : Bool :=
  e.day == d.day &&
    ((d.month < 12 && e.month == d.month + 1 && e.year == d.year) ||
     (d.month == 12 && e.month == 1 && e.year == d.year + 1))

/-! ### Basic facts about the date order and validity -/

theorem date_eq_iff (a b : Date) :
    a = b ↔ (a.year = b.year ∧ a.month = b.month ∧ a.day = b.day) := by
  cases a; cases b; simp

theorem dateLtB_iff (a b : Date) :
    dateLtB a b = true ↔
      (a.year < b.year ∨ (a.year = b.year ∧
        (a.month < b.month ∨ (a.month = b.month ∧ a.day < b.day)))) := by
  simp [dateLtB]

theorem dateLeB_iff (a b : Date) :
    dateLeB a b = true ↔ (dateLtB a b = true ∨ a = b) := by
  simp [dateLeB]

theorem dateLtB_irrefl (a : Date) : dateLtB a a = false := by
  simp [dateLtB]

theorem dateLtB_trans {a b c : Date} (h1 : dateLtB a b = true)
    (h2 : dateLtB b c = true) : dateLtB a c = true := by
  rw [dateLtB_iff] at *
  omega

theorem dateLtB_asymm {a b : Date} (h : dateLtB a b = true) :
    dateLtB b a = false := by
  rw [dateLtB_iff] at h
  rw [← Bool.not_eq_true, dateLtB_iff]
  omega

theorem dateLtB_total {a b : Date} (h : a ≠ b) :
    dateLtB a b = true ∨ dateLtB b a = true := by
  simp only [ne_eq, date_eq_iff] at h
  rw [dateLtB_iff, dateLtB_iff]
  omega

theorem dateLtB_ne {a b : Date} (h : dateLtB a b = true) : a ≠ b := by
  intro heq
  subst heq
  rw [dateLtB_irrefl] at h
  exact Bool.false_ne_true h

theorem validB_iff (d : Date) :
    d.validB = true ↔
      (1 ≤ d.year ∧ d.year ≤ 9999 ∧ 1 ≤ d.month ∧ d.month ≤ 12 ∧
        1 ≤ d.day ∧ d.day ≤ daysInMonth d.year d.month) := by
  simp [Date.validB, dateValidB]
  omega

theorem daysInMonth_pos (y m : Nat) : 1 ≤ daysInMonth y m := by
  unfold daysInMonth
  split <;> split <;> omega

theorem daysInMonth_le_31 (y m : Nat) : daysInMonth y m ≤ 31 := by
  unfold daysInMonth
  split
  · split <;> omega
  · split <;> omega

/-! ### Facts about addOneDay -/

theorem dateLtB_addOneDay (d : Date) : dateLtB d (addOneDay d) = true := by
  unfold addOneDay
  split_ifs with h1 h2 <;> rw [dateLtB_iff] <;> dsimp only <;> omega

theorem addOneDay_min {d e : Date} (hd : d.validB = true)
    (he : e.validB = true) (hlt : dateLtB d e = true) :
    dateLeB (addOneDay d) e = true := by
  rw [validB_iff] at hd he
  rw [dateLtB_iff] at hlt
  rw [dateLeB_iff, dateLtB_iff, date_eq_iff]
  have hcong : (e.year = d.year ∧ e.month = d.month) →
      daysInMonth e.year e.month = daysInMonth d.year d.month := by
    rintro ⟨h1, h2⟩
    rw [h1, h2]
  unfold addOneDay
  split_ifs with h1 h2 <;> dsimp only <;> omega

/-! ### The month-ahead test -/

theorem validB_def (d : Date) :
    d.validB = dateValidB d.year d.month d.day := rfl

theorem get_next_month_eq {m : Nat} (h1 : 1 ≤ m) (h2 : m ≤ 12) :
    get_next_month m = .ok (if m = 12 then 1 else m + 1) := by
  unfold get_next_month
  rw [if_neg (by omega)]
  congr 1
  split_ifs <;> omega

theorem is_same_date_month_ahead_eq {d e : Date}
    (hd : d.validB = true) (he : e.validB = true) :
    is_same_date_month_ahead d e = .ok (oneMonthAheadB d e) := by
  have hdv := (validB_iff d).mp hd
  unfold is_same_date_month_ahead
  rw [get_next_month_eq hdv.2.2.1 hdv.2.2.2.1]
  rw [validB_def] at he
  simp only [Bind.bind, Except.bind]
  by_cases h12 : d.month = 12
  · -- d.month = 12: successor month is January of the next year
    simp only [h12]
    norm_num
    split_ifs with hv
    · simp only [pure, Except.pure, Except.ok.injEq]
      rw [Bool.eq_iff_iff]
      simp only [beq_iff_eq, date_eq_iff, oneMonthAheadB, Bool.and_eq_true,
        Bool.or_eq_true, beq_iff_eq, decide_eq_true_eq]
      omega
    · rcases hb : oneMonthAheadB d e with _ | _
      · rfl
      · exfalso
        simp only [oneMonthAheadB, Bool.and_eq_true, Bool.or_eq_true,
          beq_iff_eq, decide_eq_true_eq] at hb
        have hy : e.year = d.year + 1 := by omega
        have hm : e.month = 1 := by omega
        have hd2 : e.day = d.day := by omega
        rw [hy, hm, hd2] at he
        exact hv he
  · -- d.month < 12: successor month is the next month of the same year
    have hne : d.month + 1 ≠ 1 := by omega
    simp only [if_neg h12, ne_eq, hne, not_false_eq_true, if_true]
    split_ifs with hv
    · simp only [pure, Except.pure, Except.ok.injEq]
      rw [Bool.eq_iff_iff]
      simp only [beq_iff_eq, date_eq_iff, oneMonthAheadB, Bool.and_eq_true,
        Bool.or_eq_true, beq_iff_eq, decide_eq_true_eq]
      omega
    · rcases hb : oneMonthAheadB d e with _ | _
      · rfl
      · exfalso
        simp only [oneMonthAheadB, Bool.and_eq_true, Bool.or_eq_true,
          beq_iff_eq, decide_eq_true_eq] at hb
        have hy : e.year = d.year := by omega
        have hm : e.month = d.month + 1 := by omega
        have hd2 : e.day = d.day := by omega
        rw [hy, hm, hd2] at he
        exact hv he

/-- Full characterization of the next-pair rule in terms of the
transparent month-ahead predicate, overflow propagation included. -/
theorem get_next_days_eq {d e : Date} (hd : d.validB = true)
    (he : e.validB = true) :
    get_next_days d e =
      (if dateLtB d e = false then .error .valueError
       else if oneMonthAheadB d e = true then
         (do
           let s ← dateAddOneDay d
           let t ← dateAddOneDay e
           pure (s, t))
       else if d.day = 1 then
         (do
           let t ← dateAddOneDay e
           pure (d, t))
       else if e.day = 1 then
         (do
           let s ← dateAddOneDay d
           pure (s, e))
       else .error .valueError) := by
  unfold get_next_days
  rw [is_same_date_month_ahead_eq hd he]
  by_cases hlt : dateLtB d e = true
  · simp only [hlt, not_true_eq_false, if_false, Bool.true_eq_false,
      Bind.bind, Except.bind]
  · rw [Bool.not_eq_true] at hlt
    simp [hlt]

/-- One-step date addition succeeds below the maximum date. -/
theorem dateAddOneDay_ok {d : Date}
    (h : dateLtB d ⟨9999, 12, 31⟩ = true) :
    dateAddOneDay d = .ok (addOneDay d) := by
  unfold dateAddOneDay
  rw [if_pos h]

/-- One-step date addition overflows exactly at the maximum date. -/
theorem dateAddOneDay_max :
    dateAddOneDay ⟨9999, 12, 31⟩ = .error .overflowError := rfl

/-- Every valid date other than 9999-12-31 lies strictly below it. -/
theorem valid_lt_max {d : Date} (hv : d.validB = true)
    (hne : d ≠ ⟨9999, 12, 31⟩) :
    dateLtB d ⟨9999, 12, 31⟩ = true := by
  have h := (validB_iff d).mp hv
  have h31 := daysInMonth_le_31 d.year d.month
  simp only [ne_eq, date_eq_iff] at hne
  rw [dateLtB_iff]
  dsimp only
  omega

/-- When e is one calendar month after d, neither date is the maximum
representable date. -/
theorem monthAhead_ne_max {d e : Date} (hd : d.validB = true)
    (he : e.validB = true) (hm : oneMonthAheadB d e = true) :
    d ≠ ⟨9999, 12, 31⟩ ∧ e ≠ ⟨9999, 12, 31⟩ := by
  have hdv := (validB_iff d).mp hd
  have hev := (validB_iff e).mp he
  simp only [oneMonthAheadB, Bool.and_eq_true, Bool.or_eq_true,
    beq_iff_eq, decide_eq_true_eq] at hm
  have hc : d.month = 11 → daysInMonth d.year d.month = 30 := by
    intro hh
    rw [hh]
    simp [daysInMonth]
  constructor
  · intro hq
    rw [date_eq_iff] at hq
    dsimp only at hq
    omega
  · intro hq
    rw [date_eq_iff] at hq
    dsimp only at hq
    omega

/-! ### Binary search -/

/-- The calendar invariant: strictly increasing dates. -/
def sortedDates (l : List Date) : Prop :=
  List.Pairwise (fun u v => dateLtB u v = true) l

theorem sorted_getD_lt {a : List Date} (hs : sortedDates a) {i j : Nat}
    (hij : i < j) (hj : j < a.length) :
    dateLtB (a.getD i default) (a.getD j default) = true := by
  rw [List.getD_eq_getElem a default (by omega),
    List.getD_eq_getElem a default hj]
  exact List.pairwise_iff_getElem.mp hs i j (by omega) hj hij

theorem bisectLeftLoop_spec {a : List Date} (x : Date) (hs : sortedDates a) :
    ∀ fuel lo hi, hi - lo ≤ fuel → lo ≤ hi → hi ≤ a.length →
      (∀ i, i < lo → dateLtB (a.getD i default) x = true) →
      (∀ i, hi ≤ i → i < a.length → dateLtB (a.getD i default) x = false) →
      lo ≤ bisectLeftLoop a x fuel lo hi ∧ bisectLeftLoop a x fuel lo hi ≤ hi ∧
      (∀ i, i < bisectLeftLoop a x fuel lo hi →
        dateLtB (a.getD i default) x = true) ∧
      (∀ i, bisectLeftLoop a x fuel lo hi ≤ i → i < a.length →
        dateLtB (a.getD i default) x = false) := by
  intro fuel
  induction fuel with
  | zero =>
    intro lo hi h0 hle hlen hbelow habove
    rw [bisectLeftLoop]
    exact ⟨le_refl _, by omega, hbelow, fun i h1 h2 => habove i (by omega) h2⟩
  | succ n ih =>
    intro lo hi h0 hle hlen hbelow habove
    rw [bisectLeftLoop]
    by_cases hlh : lo < hi
    · rw [if_pos hlh]
      dsimp only
      by_cases hcmp : dateLtB (a.getD ((lo + hi) / 2) default) x = true
      · rw [if_pos hcmp]
        have hbelow2 : ∀ i, i < (lo + hi) / 2 + 1 →
            dateLtB (a.getD i default) x = true := by
          intro i hi2
          rcases Nat.lt_or_ge i lo with h | h
          · exact hbelow i h
          · rcases Nat.lt_or_ge i ((lo + hi) / 2) with h2 | h2
            · exact dateLtB_trans (sorted_getD_lt hs h2 (by omega)) hcmp
            · have hieq : i = (lo + hi) / 2 := by omega
              rw [hieq]
              exact hcmp
        obtain ⟨ha1, ha2, ha3, ha4⟩ :=
          ih ((lo + hi) / 2 + 1) hi (by omega) (by omega) hlen hbelow2 habove
        exact ⟨by omega, ha2, ha3, ha4⟩
      · rw [if_neg hcmp]
        have habove2 : ∀ i, (lo + hi) / 2 ≤ i → i < a.length →
            dateLtB (a.getD i default) x = false := by
          intro i h1 h2
          rw [Bool.not_eq_true] at hcmp
          rcases Nat.eq_or_lt_of_le h1 with h3 | h3
          · rw [← h3]
            exact hcmp
          · rcases hx : dateLtB (a.getD i default) x with _ | _
            · rfl
            · exfalso
              have htr := dateLtB_trans (sorted_getD_lt hs h3 h2) hx
              rw [hcmp] at htr
              exact Bool.false_ne_true htr
        obtain ⟨ha1, ha2, ha3, ha4⟩ :=
          ih lo ((lo + hi) / 2) (by omega) (by omega) (by omega) hbelow habove2
        exact ⟨ha1, by omega, ha3, ha4⟩
    · rw [if_neg hlh]
      exact ⟨le_refl _, hle, hbelow, fun i h1 h2 => habove i (by omega) h2⟩

theorem bisect_left_spec {a : List Date} (x : Date) (hs : sortedDates a) :
    bisect_left a x ≤ a.length ∧
    (∀ i, i < bisect_left a x → dateLtB (a.getD i default) x = true) ∧
    (∀ i, bisect_left a x ≤ i → i < a.length →
      dateLtB (a.getD i default) x = false) := by
  have h := bisectLeftLoop_spec x hs a.length 0 a.length (by omega) (by omega)
    (le_refl _) (fun i h1 => absurd h1 (Nat.not_lt_zero i))
    (fun i h1 h2 => absurd h2 (by omega))
  exact ⟨h.2.1, h.2.2.1, h.2.2.2⟩

theorem binary_search_mem {a : List Date} {x : Date} (hs : sortedDates a)
    (hx : x ∈ a) :
    ∃ i, binary_search a x = .ok i ∧ i < a.length ∧ a.getD i default = x := by
  obtain ⟨j, hjlen, hjx⟩ := List.mem_iff_getElem.mp hx
  have hjd : a.getD j default = x := by
    rw [List.getD_eq_getElem a default hjlen]
    exact hjx
  obtain ⟨hle, hlt, hge⟩ := bisect_left_spec x hs
  have hrj : bisect_left a x = j := by
    rcases Nat.lt_trichotomy (bisect_left a x) j with h | h | h
    · exfalso
      have h2 := hge (bisect_left a x) (le_refl _) (by omega)
      have h3 := sorted_getD_lt hs h hjlen
      rw [hjd] at h3
      rw [h2] at h3
      exact Bool.false_ne_true h3
    · exact h
    · exfalso
      have h2 := hlt j h
      rw [hjd, dateLtB_irrefl] at h2
      exact Bool.false_ne_true h2
  refine ⟨j, ?_, hjlen, hjd⟩
  unfold binary_search
  rw [hrj, if_pos ⟨by omega, hjd⟩]

theorem binary_search_not_mem {a : List Date} {x : Date} (hx : x ∉ a) :
    binary_search a x = .error .lookupError := by
  unfold binary_search
  dsimp only
  split_ifs with h
  · exfalso
    obtain ⟨h1, h2⟩ := h
    by_cases hle : bisect_left a x < a.length
    · apply hx
      rw [← h2, List.getD_eq_getElem a default hle]
      exact List.getElem_mem hle
    · -- bisect_left never exceeds the length
      have h3 : ∀ fuel lo hi, lo ≤ hi →
          bisectLeftLoop a x fuel lo hi ≤ hi := by
        intro fuel
        induction fuel with
        | zero =>
          intro lo hi hle2
          rw [bisectLeftLoop]
          exact hle2
        | succ n ih =>
          intro lo hi hle2
          rw [bisectLeftLoop]
          by_cases hlh : lo < hi
          · rw [if_pos hlh]
            dsimp only
            split_ifs
            · exact ih ((lo + hi) / 2 + 1) hi (by omega)
            · exact Nat.le_trans (ih lo ((lo + hi) / 2) (by omega))
                (by omega)
          · rw [if_neg hlh]
            exact hle2
      have hble : bisect_left a x ≤ a.length := by
        unfold bisect_left
        exact h3 a.length 0 a.length (by omega)
      omega
  · rfl

/-! ### Slicing -/

theorem pySlice_of_nonneg {l : List Date} {a b : Int} (ha : 0 ≤ a)
    (hab : a ≤ b) (hal : a.toNat ≤ l.length) :
    pySlice l a b = (l.drop a.toNat).take (b - a).toNat := by
  unfold pySlice
  dsimp only
  rw [if_neg (by omega), if_neg (by omega)]
  have ha2 : min a (l.length : Int) = a := by omega
  rw [ha2]
  rcases le_or_lt b (l.length : Int) with hb2 | hb2
  · have hb3 : min b (l.length : Int) = b := by omega
    rw [hb3]
  · have hb3 : min b (l.length : Int) = (l.length : Int) := by omega
    rw [hb3]
    rw [List.take_of_length_le (by rw [List.length_drop]; omega),
      List.take_of_length_le (by rw [List.length_drop]; omega)]

theorem pySlice_empty {l : List Date} {a b : Int} (hb : 0 ≤ b)
    (hba : b ≤ a) : pySlice l a b = [] := by
  unfold pySlice
  dsimp only
  rw [if_neg (by omega), if_neg (by omega)]
  have h0 : (min b (l.length : Int) - min a (l.length : Int)).toNat = 0 := by
    omega
  rw [h0]
  rfl

/-! ### get_extra_workdays -/

theorem get_extra_workdays_ok {ws : List Date} {d : Date} {n : Int}
    (hs : sortedDates ws) (hd : d ∈ ws) (hn : 0 < n) :
    ∃ i, binary_search ws d = .ok i ∧ i < ws.length ∧
      ws.getD i default = d ∧
      get_extra_workdays ws d n = .ok ((ws.drop (i + 1)).take n.toNat) := by
  obtain ⟨i, hbs, hilen, hgd⟩ := binary_search_mem hs hd
  refine ⟨i, hbs, hilen, hgd, ?_⟩
  unfold get_extra_workdays
  rw [hbs]
  dsimp only
  congr 1
  rw [pySlice_of_nonneg (by omega) (by omega) (by omega)]
  have h1 : ((i : Int) + 1).toNat = i + 1 := by omega
  have h2 : ((i : Int) + 1 + n - ((i : Int) + 1)).toNat = n.toNat := by omega
  rw [h1, h2]

theorem get_extra_workdays_not_mem {ws : List Date} {d : Date} {n : Int}
    (hd : d ∉ ws) :
    get_extra_workdays ws d n = .error .lookupError := by
  unfold get_extra_workdays
  rw [binary_search_not_mem hd]

theorem extra_slice_sorted {ws : List Date} (hs : sortedDates ws)
    (i m : Nat) : sortedDates ((ws.drop i).take m) :=
  hs.sublist ((List.take_sublist _ _).trans (List.drop_sublist _ _))

theorem extra_slice_mem {ws : List Date} (i m : Nat) :
    ∀ x ∈ (ws.drop i).take m, x ∈ ws :=
  fun _ hx =>
    ((List.take_sublist _ _).trans (List.drop_sublist _ _)).subset hx

theorem extra_slice_length {ws : List Date} (i m : Nat) :
    ((ws.drop i).take m).length = min m (ws.length - i) := by
  rw [List.length_take, List.length_drop]

/-! ### The Strategy B cursor loop -/

theorem threeFieldLoop_spec (v : Rat) :
    ∀ n d e l, threeFieldLoop v n d e = .ok l →
      ∃ pairs : List (Date × Date), pairs.length = n ∧
        List.Chain (fun p q => get_next_days p.1 p.2 = .ok q) (d, e) pairs ∧
        l = pairs.map
          (fun p => { date := p.1, end_date := some p.2, value := v }) := by
  intro n
  induction n with
  | zero =>
    intro d e l h
    rw [threeFieldLoop] at h
    simp only [Except.ok.injEq] at h
    exact ⟨[], rfl, List.Chain.nil, by rw [← h]; rfl⟩
  | succ n ih =>
    intro d e l h
    rw [threeFieldLoop] at h
    cases hnd : get_next_days d e with
    | error err =>
      rw [hnd] at h
      simp only [Bind.bind, Except.bind] at h
      exact absurd h (by simp)
    | ok next =>
      rw [hnd] at h
      simp only [Bind.bind, Except.bind] at h
      cases hrest : threeFieldLoop v n next.1 next.2 with
      | error err =>
        rw [hrest] at h
        exact absurd h (by simp)
      | ok rest =>
        rw [hrest] at h
        simp only [pure, Except.pure, Except.ok.injEq] at h
        obtain ⟨pairs, hlen, hchain, hmap⟩ := ih next.1 next.2 rest hrest
        refine ⟨(next.1, next.2) :: pairs, by simp [hlen], ?_, ?_⟩
        · exact List.Chain.cons (by simpa using hnd) hchain
        · rw [← h, hmap]
          rfl

/-! ### Small order corollaries -/

theorem dateLeB_refl (a : Date) : dateLeB a a = true := by
  simp [dateLeB]

theorem dateLtB_le {a b : Date} (h : dateLtB a b = true) :
    dateLeB a b = true := by
  simp [dateLeB, h]

theorem dateLeB_of_le_lt {a b c : Date} (h1 : dateLeB a b = true)
    (h2 : dateLtB b c = true) : dateLeB a c = true := by
  rw [dateLeB_iff] at h1 ⊢
  rcases h1 with h1 | h1
  · exact Or.inl (dateLtB_trans h1 h2)
  · rw [h1]
    exact Or.inl h2

theorem dateLtB_of_lt_le {a b c : Date} (h1 : dateLtB a b = true)
    (h2 : dateLeB b c = true) : dateLtB a c = true := by
  rw [dateLeB_iff] at h2
  rcases h2 with h2 | h2
  · exact dateLtB_trans h1 h2
  · rw [← h2]
    exact h1

theorem valid_le_max {d : Date} (hv : d.validB = true) :
    dateLeB d ⟨9999, 12, 31⟩ = true := by
  by_cases h : d = ⟨9999, 12, 31⟩
  · rw [h]
    exact dateLeB_refl _
  · exact dateLtB_le (valid_lt_max hv h)

/-! ### Claims -/

/-- C1 counterexample: at the valid pair (9999-12-01, 9999-12-31) the
conditions of the day-1 rule hold (d < e, not one month ahead,
d.day = 1), but the claimed return of (d, e + 1 day) is impossible:
incrementing the end date passes date.max, and the code raises
OverflowError instead of returning. -/
theorem C1_counterexample :
    Date.validB ⟨9999, 12, 1⟩ = true ∧ Date.validB ⟨9999, 12, 31⟩ = true ∧
    dateLtB ⟨9999, 12, 1⟩ ⟨9999, 12, 31⟩ = true ∧
    (⟨9999, 12, 1⟩ : Date).day = 1 ∧
    oneMonthAheadB ⟨9999, 12, 1⟩ ⟨9999, 12, 31⟩ = false ∧
    get_next_days ⟨9999, 12, 1⟩ ⟨9999, 12, 31⟩ = .error .overflowError :=
  ⟨by decide, by decide, by decide, rfl, by decide, by decide⟩

/-- C1 (amended): for every pair of dates (d, e), `_get_next_days`
raises InvalidDatePair (ValueError) when d >= e; when e is exactly one
calendar month after d at the same day-of-month it returns
(d + 1 day, e + 1 day); otherwise when d.day = 1 it returns
(d, e + 1 day) — except when e is the maximum representable date
9999-12-31, where incrementing e overflows and OverflowError is raised
instead; otherwise when e.day = 1 it returns (d + 1 day, e); otherwise
it raises InvalidDatePair.  Starting from (1993-01-28, 1993-02-28),
the first three iteration steps produce (1993-01-29, 1993-03-01),
(1993-01-30, 1993-03-01), (1993-01-31, 1993-03-01). -/
theorem C1_next_pair_rule (d e : Date) (hd : d.validB = true)
    (he : e.validB = true) :
    (dateLtB d e = false → get_next_days d e = .error .valueError) ∧
    (dateLtB d e = true → oneMonthAheadB d e = true →
      get_next_days d e = .ok (addOneDay d, addOneDay e)) ∧
    (dateLtB d e = true → oneMonthAheadB d e = false → d.day = 1 →
      e ≠ ⟨9999, 12, 31⟩ → get_next_days d e = .ok (d, addOneDay e)) ∧
    (dateLtB d e = true → oneMonthAheadB d e = false → d.day = 1 →
      e = ⟨9999, 12, 31⟩ →
      get_next_days d e = .error .overflowError) ∧
    (dateLtB d e = true → oneMonthAheadB d e = false → d.day ≠ 1 →
      e.day = 1 → get_next_days d e = .ok (addOneDay d, e)) ∧
    (dateLtB d e = true → oneMonthAheadB d e = false → d.day ≠ 1 →
      e.day ≠ 1 → get_next_days d e = .error .valueError) ∧
    (get_next_days ⟨1993, 1, 28⟩ ⟨1993, 2, 28⟩ =
        .ok (⟨1993, 1, 29⟩, ⟨1993, 3, 1⟩) ∧
      get_next_days ⟨1993, 1, 29⟩ ⟨1993, 3, 1⟩ =
        .ok (⟨1993, 1, 30⟩, ⟨1993, 3, 1⟩) ∧
      get_next_days ⟨1993, 1, 30⟩ ⟨1993, 3, 1⟩ =
        .ok (⟨1993, 1, 31⟩, ⟨1993, 3, 1⟩)) := by
  rw [get_next_days_eq hd he]
  refine ⟨?_, ?_, ?_, ?_, ?_, ?_, by exact ⟨rfl, rfl, rfl⟩⟩
  · intro h1
    rw [if_pos h1]
  · intro h1 h2
    obtain ⟨hnd, hne⟩ := monthAhead_ne_max hd he h2
    rw [if_neg (by rw [h1]; simp), if_pos h2,
      dateAddOneDay_ok (valid_lt_max hd hnd),
      dateAddOneDay_ok (valid_lt_max he hne)]
    rfl
  · intro h1 h2 h3 h4
    rw [if_neg (by rw [h1]; simp), if_neg (by rw [h2]; simp), if_pos h3,
      dateAddOneDay_ok (valid_lt_max he h4)]
    rfl
  · intro h1 h2 h3 h4
    rw [if_neg (by rw [h1]; simp), if_neg (by rw [h2]; simp), if_pos h3,
      h4, dateAddOneDay_max]
    rfl
  · intro h1 h2 h3 h4
    rw [if_neg (by rw [h1]; simp), if_neg (by rw [h2]; simp), if_neg h3,
      if_pos h4,
      dateAddOneDay_ok (dateLtB_of_lt_le h1 (valid_le_max he))]
    rfl
  · intro h1 h2 h3 h4
    rw [if_neg (by rw [h1]; simp), if_neg (by rw [h2]; simp), if_neg h3,
      if_neg h4]

/-- Witness for the amended C1 at the concrete pair
(2020-01-15, 2020-02-15). -/
theorem C1_next_pair_rule_witness :
    Date.validB ⟨2020, 1, 15⟩ = true ∧ Date.validB ⟨2020, 2, 15⟩ = true ∧
    get_next_days ⟨2020, 1, 15⟩ ⟨2020, 2, 15⟩ =
      .ok (addOneDay ⟨2020, 1, 15⟩, addOneDay ⟨2020, 2, 15⟩) :=
  ⟨by decide, by decide,
    (C1_next_pair_rule ⟨2020, 1, 15⟩ ⟨2020, 2, 15⟩ (by decide)
      (by decide)).2.1 (by decide) (by decide)⟩

/-- C10: whenever `_get_next_days` succeeds on a pair d < e, each
component advances by at most one day, stays at least where it was, the
pair strictly advances, and the new start date never passes the new end
date. -/
theorem C10_cursor_invariant {d e d2 e2 : Date} (hd : d.validB = true)
    (he : e.validB = true) (hlt : dateLtB d e = true)
    (h : get_next_days d e = .ok (d2, e2)) :
    dateLeB d d2 = true ∧ dateLeB d2 (addOneDay d) = true ∧
    dateLeB e e2 = true ∧ dateLeB e2 (addOneDay e) = true ∧
    (d2, e2) ≠ (d, e) ∧ dateLeB d2 e2 = true := by
  rw [get_next_days_eq hd he, if_neg (by rw [hlt]; simp)] at h
  rcases hom : oneMonthAheadB d e with _ | _
  · rw [if_neg (by rw [hom]; simp)] at h
    by_cases hd1 : d.day = 1
    · rw [if_pos hd1] at h
      by_cases hemax : e = ⟨9999, 12, 31⟩
      · rw [hemax, dateAddOneDay_max] at h
        exact absurd h (by simp [Bind.bind, Except.bind])
      · rw [dateAddOneDay_ok (valid_lt_max he hemax)] at h
        simp only [Bind.bind, Except.bind, pure, Except.pure,
          Except.ok.injEq, Prod.mk.injEq] at h
        obtain ⟨hd2, he2⟩ := h
        subst hd2
        subst he2
        refine ⟨dateLeB_refl d, dateLtB_le (dateLtB_addOneDay d),
          dateLtB_le (dateLtB_addOneDay e), dateLeB_refl _, ?_, ?_⟩
        · intro hpe
          rw [Prod.mk.injEq] at hpe
          exact dateLtB_ne (dateLtB_addOneDay e) hpe.2.symm
        · exact dateLeB_of_le_lt (dateLtB_le hlt) (dateLtB_addOneDay e)
    · rw [if_neg hd1] at h
      by_cases he1 : e.day = 1
      · rw [if_pos he1,
          dateAddOneDay_ok (dateLtB_of_lt_le hlt (valid_le_max he))] at h
        simp only [Bind.bind, Except.bind, pure, Except.pure,
          Except.ok.injEq, Prod.mk.injEq] at h
        obtain ⟨hd2, he2⟩ := h
        subst hd2
        subst he2
        refine ⟨dateLtB_le (dateLtB_addOneDay d), dateLeB_refl _,
          dateLeB_refl e, dateLtB_le (dateLtB_addOneDay e), ?_,
          addOneDay_min hd he hlt⟩
        intro hpe
        rw [Prod.mk.injEq] at hpe
        exact dateLtB_ne (dateLtB_addOneDay d) hpe.1.symm
      · rw [if_neg he1] at h
        exact absurd h (by simp)
  · rw [if_pos hom] at h
    obtain ⟨hnd, hne⟩ := monthAhead_ne_max hd he hom
    rw [dateAddOneDay_ok (valid_lt_max hd hnd),
      dateAddOneDay_ok (valid_lt_max he hne)] at h
    simp only [Bind.bind, Except.bind, pure, Except.pure,
      Except.ok.injEq, Prod.mk.injEq] at h
    obtain ⟨hd2, he2⟩ := h
    subst hd2
    subst he2
    refine ⟨dateLtB_le (dateLtB_addOneDay d), dateLeB_refl _,
      dateLtB_le (dateLtB_addOneDay e), dateLeB_refl _, ?_, ?_⟩
    · intro hpe
      rw [Prod.mk.injEq] at hpe
      exact dateLtB_ne (dateLtB_addOneDay d) hpe.1.symm
    · exact dateLeB_of_le_lt (addOneDay_min hd he hlt) (dateLtB_addOneDay e)

/-- Witness for C10 at the concrete pair (2006-03-01, 2006-03-30). -/
theorem C10_cursor_invariant_witness :
    dateLeB ⟨2006, 3, 1⟩ ⟨2006, 3, 1⟩ = true ∧
    dateLeB ⟨2006, 3, 31⟩ (addOneDay ⟨2006, 3, 30⟩) = true ∧
    dateLeB ⟨2006, 3, 1⟩ ⟨2006, 3, 31⟩ = true :=
  have h := @C10_cursor_invariant ⟨2006, 3, 1⟩ ⟨2006, 3, 30⟩
    ⟨2006, 3, 1⟩ ⟨2006, 3, 31⟩ (by decide) (by decide) (by decide) rfl
  ⟨h.1, h.2.2.2.1, h.2.2.2.2.2⟩

/-- C6: for every member d of the sorted calendar, `binary_search`
succeeds with an index that round-trips (indexing the calendar there
yields d again); for every non-member — weekend, holiday or
out-of-range date alike — it fails with NotABusinessDay
(LookupError). -/
theorem C6_lookup_roundtrip {ws : List Date} (hs : sortedDates ws)
    (d : Date) :
    (d ∈ ws → ∃ i, binary_search ws d = .ok i ∧ i < ws.length ∧
      ws.getD i default = d) ∧
    (d ∉ ws → binary_search ws d = .error .lookupError) :=
  ⟨fun hd => binary_search_mem hs hd, fun hd => binary_search_not_mem hd⟩

/-- Witness for C6 on the concrete calendar. -/
theorem C6_lookup_roundtrip_witness :
    ((⟨2001, 1, 3⟩ : Date) ∈ demoCalendar ∧
      (∃ i, binary_search demoCalendar ⟨2001, 1, 3⟩ = .ok i ∧
        i < demoCalendar.length ∧
        demoCalendar.getD i default = ⟨2001, 1, 3⟩)) ∧
    ((⟨2001, 2, 28⟩ : Date) ∉ demoCalendar ∧
      binary_search demoCalendar ⟨2001, 2, 28⟩ = .error .lookupError) :=
  ⟨⟨by decide,
      (C6_lookup_roundtrip (by unfold sortedDates; decide) ⟨2001, 1, 3⟩).1
        (by decide)⟩,
    ⟨by decide,
      (C6_lookup_roundtrip (by unfold sortedDates; decide) ⟨2001, 2, 28⟩).2
        (by decide)⟩⟩

/-- C3: for a member d of the sorted calendar and positive count n,
`get_extra_workdays` returns exactly the calendar slice at positions
[index(d)+1, index(d)+1+n): exactly n dates when the calendar extends
at least n entries past d, strictly fewer (without error) when it does
not; the result is strictly increasing and consists of calendar
members.  For a non-member it raises NotABusinessDay (LookupError). -/
theorem C3_extra_workdays {ws : List Date} {d : Date} {n : Int}
    (hs : sortedDates ws) (hn : 0 < n) :
    (d ∈ ws → ∃ i l, binary_search ws d = .ok i ∧
      get_extra_workdays ws d n = .ok l ∧
      l = (ws.drop (i + 1)).take n.toNat ∧
      (i + 1 + n.toNat ≤ ws.length → l.length = n.toNat) ∧
      (ws.length < i + 1 + n.toNat → l.length < n.toNat) ∧
      sortedDates l ∧ (∀ x ∈ l, x ∈ ws)) ∧
    (d ∉ ws → get_extra_workdays ws d n = .error .lookupError) := by
  constructor
  · intro hd
    obtain ⟨i, hbs, hilen, hgd, hgw⟩ := get_extra_workdays_ok hs hd hn
    refine ⟨i, _, hbs, hgw, rfl, ?_, ?_, extra_slice_sorted hs _ _,
      extra_slice_mem _ _⟩
    · intro hfar
      rw [extra_slice_length]
      omega
    · intro hnear
      rw [extra_slice_length]
      omega
  · intro hd
    exact get_extra_workdays_not_mem hd

/-- Witness for C3 on the concrete calendar. -/
theorem C3_extra_workdays_witness :
    (0 : Int) < 30 ∧
    ((⟨2001, 1, 3⟩ : Date) ∈ demoCalendar ∧
      (∃ i l, binary_search demoCalendar ⟨2001, 1, 3⟩ = .ok i ∧
        get_extra_workdays demoCalendar ⟨2001, 1, 3⟩ 30 = .ok l ∧
        l = (demoCalendar.drop (i + 1)).take (30 : Int).toNat ∧
        (i + 1 + (30 : Int).toNat ≤ demoCalendar.length →
          l.length = (30 : Int).toNat) ∧
        (demoCalendar.length < i + 1 + (30 : Int).toNat →
          l.length < (30 : Int).toNat) ∧
        sortedDates l ∧ (∀ x ∈ l, x ∈ demoCalendar))) ∧
    ((⟨2001, 2, 28⟩ : Date) ∉ demoCalendar ∧
      get_extra_workdays demoCalendar ⟨2001, 2, 28⟩ 30 =
        .error .lookupError) :=
  ⟨by decide,
    ⟨by decide,
      (C3_extra_workdays (by unfold sortedDates; decide) (by decide)).1
        (by decide)⟩,
    ⟨by decide,
      (C3_extra_workdays (by unfold sortedDates; decide) (by decide)).2
        (by decide)⟩⟩

/-- C8 counterexample: on a calendar member with count -2 (a negative
count, hence ≤ 0), `get_extra_workdays` returns a nonempty sequence,
because the Python slice stop index wraps around to the top of the
calendar. -/
theorem C8_counterexample :
    (⟨2001, 1, 1⟩ : Date) ∈ demoCalendar ∧ (-2 : Int) ≤ 0 ∧
    ∃ l, get_extra_workdays demoCalendar ⟨2001, 1, 1⟩ (-2) = .ok l ∧
      l ≠ [] :=
  ⟨by decide, by decide, ⟨(demoCalendar.drop 1).take 33, rfl, by decide⟩⟩

/-- C8 amended: for a member d resolved at index i and count ≤ 0,
`get_extra_workdays` returns an empty sequence provided the stop index
i + 1 + count is nonnegative (for counts below -(i+1) the Python slice
wraps around and the result can be nonempty). -/
theorem C8_nonpositive_count {ws : List Date} {d : Date} {n : Int}
    {i : Nat} (hbs : binary_search ws d = .ok i) (hn : n ≤ 0)
    (hnn : 0 ≤ (i : Int) + 1 + n) :
    get_extra_workdays ws d n = .ok [] := by
  unfold get_extra_workdays
  rw [hbs]
  dsimp only
  rw [pySlice_empty (by omega) (by omega)]

/-- Witness for the amended C8. -/
theorem C8_nonpositive_count_witness :
    binary_search demoCalendar ⟨2001, 1, 5⟩ = .ok 4 ∧ (-2 : Int) ≤ 0 ∧
    (0 : Int) ≤ (4 : Nat) + 1 + (-2) ∧
    get_extra_workdays demoCalendar ⟨2001, 1, 5⟩ (-2) = .ok [] :=
  ⟨rfl, by decide, by decide,
    @C8_nonpositive_count demoCalendar ⟨2001, 1, 5⟩ (-2) 4 rfl (by decide)
      (by decide)⟩

/-- C7: the calendar load fails with AssertionError exactly when the
number of parsed dates differs from the expected constant 19593; on
success it returns precisely the loaded dates, hence exactly 19593 of
them (the returned tuple is immutable, which the pure embedding
reflects by construction). -/
theorem C7_load_assert (rows : List Date) :
    (load_workdays rows = .error .assertionError ↔
      rows.length ≠ number_workdays) ∧
    (∀ ws, load_workdays rows = .ok ws → ws = rows ∧ ws.length = 19593) := by
  unfold load_workdays
  constructor
  · split_ifs with h
    · simp [h]
    · simp [h]
  · intro ws hw
    by_cases h : rows.length = number_workdays
    · rw [if_pos h] at hw
      simp only [Except.ok.injEq] at hw
      subst hw
      exact ⟨rfl, h⟩
    · rw [if_neg h] at hw
      exact absurd hw (by simp)

/-- Witness for C7 at an input of the expected length. -/
theorem C7_load_assert_witness :
    (load_workdays (List.replicate 19593 (⟨2001, 1, 2⟩ : Date)) =
        .error .assertionError ↔
      (List.replicate 19593 (⟨2001, 1, 2⟩ : Date)).length ≠
        number_workdays) ∧
    (List.replicate 19593 (⟨2001, 1, 2⟩ : Date) =
        List.replicate 19593 (⟨2001, 1, 2⟩ : Date) ∧
      (List.replicate 19593 (⟨2001, 1, 2⟩ : Date)).length = 19593) :=
  ⟨(C7_load_assert _).1,
    (C7_load_assert (List.replicate 19593 ⟨2001, 1, 2⟩)).2 _
      (by
        have hlen : (List.replicate 19593 (⟨2001, 1, 2⟩ : Date)).length =
            number_workdays := by
          rw [List.length_replicate]
          rfl
        unfold load_workdays
        rw [if_pos hlen])⟩

/-- C2: on a one-record input whose date sits at index i of the sorted
calendar with at least 30 calendar entries above it, Strategy A returns
the original record followed by exactly 30 synthetic records, all
carrying the original value, with strictly increasing dates that are
all calendar members (hence never weekends). -/
theorem C2_strategy_a {ws : List Date} {r : IndicesRecord} {i : Nat}
    (hs : sortedDates ws) (hd : r.date ∈ ws)
    (hbs : binary_search ws r.date = .ok i) (hfar : i + 31 ≤ ws.length) :
    ∃ extras : List IndicesRecord,
      daily_workday_indices_expander ws [r] = .ok (r :: extras) ∧
      extras.length = 30 ∧ (∀ s ∈ extras, s.value = r.value) ∧
      List.Pairwise (fun s t => dateLtB s.date t.date = true) extras ∧
      (∀ s ∈ extras, s.date ∈ ws) := by
  obtain ⟨j, hbs2, hjlen, hgd, hgw⟩ :=
    get_extra_workdays_ok hs hd (by omega : (0 : Int) < 30)
  rw [hbs] at hbs2
  injection hbs2 with hji
  subst hji
  refine ⟨((ws.drop (i + 1)).take (30 : Int).toNat).map
    (fun day => { date := day, value := r.value }), ?_, ?_, ?_, ?_, ?_⟩
  · unfold daily_workday_indices_expander
    rw [show ([r] : List IndicesRecord).getLast? = some r from rfl]
    dsimp only
    rw [hgw]
    rfl
  · rw [List.length_map, extra_slice_length]
    omega
  · intro s hsm
    rw [List.mem_map] at hsm
    obtain ⟨day, hday, heq⟩ := hsm
    rw [← heq]
  · exact List.pairwise_map.mpr (extra_slice_sorted hs (i + 1) (30 : Int).toNat)
  · intro s hsm
    rw [List.mem_map] at hsm
    obtain ⟨day, hday, heq⟩ := hsm
    rw [← heq]
    exact extra_slice_mem _ _ day hday

/-- Witness for C2 on the concrete calendar. -/
theorem C2_strategy_a_witness :
    (⟨2001, 1, 1⟩ : Date) ∈ demoCalendar ∧
    (0 : Nat) + 31 ≤ demoCalendar.length ∧
    ∃ extras : List IndicesRecord,
      daily_workday_indices_expander demoCalendar
          [{ date := ⟨2001, 1, 1⟩, end_date := none, value := 1 }] =
        .ok ({ date := ⟨2001, 1, 1⟩, end_date := none, value := 1 } :: extras) ∧
      extras.length = 30 ∧
      (∀ s ∈ extras, s.value = (1 : Rat)) ∧
      List.Pairwise (fun s t => dateLtB s.date t.date = true) extras ∧
      (∀ s ∈ extras, s.date ∈ demoCalendar) :=
  ⟨by decide, by decide,
    @C2_strategy_a demoCalendar
      { date := ⟨2001, 1, 1⟩, end_date := none, value := 1 } 0
      (by unfold sortedDates; decide) (by decide) rfl (by decide)⟩

/-- One unfolding step of the Strategy B loop on a successful
advancement. -/
theorem threeFieldLoop_step {v : Rat} {n : Nat} {d e d2 e2 : Date}
    {rest : List IndicesRecord} (h1 : get_next_days d e = .ok (d2, e2))
    (h2 : threeFieldLoop v n d2 e2 = .ok rest) :
    threeFieldLoop v (n + 1) d e =
      .ok ({ date := d2, end_date := some e2, value := v } :: rest) := by
  rw [threeFieldLoop, h1]
  simp only [Bind.bind, Except.bind, h2, pure, Except.pure]

/-- C5: whenever Strategy B succeeds on a non-empty input (all 30
cursor advancements succeed), it returns the input followed by exactly
30 synthetic records, each carrying the last input value, whose
(date, end_date) pairs form the orbit of the next-pair rule started
from the last input pair. -/
theorem C5_strategy_b {records : List IndicesRecord}
    {last : IndicesRecord} {e0 : Date} {out : List IndicesRecord}
    (hlast : records.getLast? = some last)
    (hend : last.end_date = some e0)
    (hok : daily_three_field_indices_expander records = .ok out) :
    ∃ pairs : List (Date × Date), pairs.length = 30 ∧
      List.Chain (fun p q => get_next_days p.1 p.2 = .ok q)
        (last.date, e0) pairs ∧
      out = records ++ pairs.map
        (fun p => { date := p.1, end_date := some p.2,
                    value := last.value }) := by
  unfold daily_three_field_indices_expander at hok
  rw [hlast] at hok
  dsimp only at hok
  rw [hend] at hok
  dsimp only at hok
  cases hloop : threeFieldLoop last.value 30 last.date e0 with
  | error err =>
    rw [hloop] at hok
    exact absurd hok (by simp [Bind.bind, Except.bind])
  | ok extra =>
    rw [hloop] at hok
    simp only [Bind.bind, Except.bind, pure, Except.pure,
      Except.ok.injEq] at hok
    obtain ⟨pairs, hlen, hchain, hmap⟩ :=
      threeFieldLoop_spec last.value 30 last.date e0 extra hloop
    exact ⟨pairs, hlen, hchain, by rw [← hok, hmap]⟩

/-- Witness for C5 at the concrete TR record (1993-01-28, 1993-02-28). -/
theorem C5_strategy_b_witness :
    ∃ pairs : List (Date × Date), pairs.length = 30 ∧
      List.Chain (fun p q => get_next_days p.1 p.2 = .ok q)
        (⟨1993, 1, 28⟩, ⟨1993, 2, 28⟩) pairs ∧
      ([⟨⟨1993, 1, 28⟩, some ⟨1993, 2, 28⟩, 1⟩] ++ trRecords 0
        : List IndicesRecord) =
        [⟨⟨1993, 1, 28⟩, some ⟨1993, 2, 28⟩, 1⟩] ++ pairs.map
          (fun p => { date := p.1, end_date := some p.2, value := 1 }) := by
  have h30 : threeFieldLoop 1 0 ⟨1993, 2, 27⟩ ⟨1993, 3, 27⟩ = .ok (trRecords 30) := rfl
  have h29 : threeFieldLoop 1 1 ⟨1993, 2, 26⟩ ⟨1993, 3, 26⟩ = .ok (trRecords 29) :=
    threeFieldLoop_step (by decide) h30
  have h28 : threeFieldLoop 1 2 ⟨1993, 2, 25⟩ ⟨1993, 3, 25⟩ = .ok (trRecords 28) :=
    threeFieldLoop_step (by decide) h29
  have h27 : threeFieldLoop 1 3 ⟨1993, 2, 24⟩ ⟨1993, 3, 24⟩ = .ok (trRecords 27) :=
    threeFieldLoop_step (by decide) h28
  have h26 : threeFieldLoop 1 4 ⟨1993, 2, 23⟩ ⟨1993, 3, 23⟩ = .ok (trRecords 26) :=
    threeFieldLoop_step (by decide) h27
  have h25 : threeFieldLoop 1 5 ⟨1993, 2, 22⟩ ⟨1993, 3, 22⟩ = .ok (trRecords 25) :=
    threeFieldLoop_step (by decide) h26
  have h24 : threeFieldLoop 1 6 ⟨1993, 2, 21⟩ ⟨1993, 3, 21⟩ = .ok (trRecords 24) :=
    threeFieldLoop_step (by decide) h25
  have h23 : threeFieldLoop 1 7 ⟨1993, 2, 20⟩ ⟨1993, 3, 20⟩ = .ok (trRecords 23) :=
    threeFieldLoop_step (by decide) h24
  have h22 : threeFieldLoop 1 8 ⟨1993, 2, 19⟩ ⟨1993, 3, 19⟩ = .ok (trRecords 22) :=
    threeFieldLoop_step (by decide) h23
  have h21 : threeFieldLoop 1 9 ⟨1993, 2, 18⟩ ⟨1993, 3, 18⟩ = .ok (trRecords 21) :=
    threeFieldLoop_step (by decide) h22
  have h20 : threeFieldLoop 1 10 ⟨1993, 2, 17⟩ ⟨1993, 3, 17⟩ = .ok (trRecords 20) :=
    threeFieldLoop_step (by decide) h21
  have h19 : threeFieldLoop 1 11 ⟨1993, 2, 16⟩ ⟨1993, 3, 16⟩ = .ok (trRecords 19) :=
    threeFieldLoop_step (by decide) h20
  have h18 : threeFieldLoop 1 12 ⟨1993, 2, 15⟩ ⟨1993, 3, 15⟩ = .ok (trRecords 18) :=
    threeFieldLoop_step (by decide) h19
  have h17 : threeFieldLoop 1 13 ⟨1993, 2, 14⟩ ⟨1993, 3, 14⟩ = .ok (trRecords 17) :=
    threeFieldLoop_step (by decide) h18
  have h16 : threeFieldLoop 1 14 ⟨1993, 2, 13⟩ ⟨1993, 3, 13⟩ = .ok (trRecords 16) :=
    threeFieldLoop_step (by decide) h17
  have h15 : threeFieldLoop 1 15 ⟨1993, 2, 12⟩ ⟨1993, 3, 12⟩ = .ok (trRecords 15) :=
    threeFieldLoop_step (by decide) h16
  have h14 : threeFieldLoop 1 16 ⟨1993, 2, 11⟩ ⟨1993, 3, 11⟩ = .ok (trRecords 14) :=
    threeFieldLoop_step (by decide) h15
  have h13 : threeFieldLoop 1 17 ⟨1993, 2, 10⟩ ⟨1993, 3, 10⟩ = .ok (trRecords 13) :=
    threeFieldLoop_step (by decide) h14
  have h12 : threeFieldLoop 1 18 ⟨1993, 2, 9⟩ ⟨1993, 3, 9⟩ = .ok (trRecords 12) :=
    threeFieldLoop_step (by decide) h13
  have h11 : threeFieldLoop 1 19 ⟨1993, 2, 8⟩ ⟨1993, 3, 8⟩ = .ok (trRecords 11) :=
    threeFieldLoop_step (by decide) h12
  have h10 : threeFieldLoop 1 20 ⟨1993, 2, 7⟩ ⟨1993, 3, 7⟩ = .ok (trRecords 10) :=
    threeFieldLoop_step (by decide) h11
  have h9 : threeFieldLoop 1 21 ⟨1993, 2, 6⟩ ⟨1993, 3, 6⟩ = .ok (trRecords 9) :=
    threeFieldLoop_step (by decide) h10
  have h8 : threeFieldLoop 1 22 ⟨1993, 2, 5⟩ ⟨1993, 3, 5⟩ = .ok (trRecords 8) :=
    threeFieldLoop_step (by decide) h9
  have h7 : threeFieldLoop 1 23 ⟨1993, 2, 4⟩ ⟨1993, 3, 4⟩ = .ok (trRecords 7) :=
    threeFieldLoop_step (by decide) h8
  have h6 : threeFieldLoop 1 24 ⟨1993, 2, 3⟩ ⟨1993, 3, 3⟩ = .ok (trRecords 6) :=
    threeFieldLoop_step (by decide) h7
  have h5 : threeFieldLoop 1 25 ⟨1993, 2, 2⟩ ⟨1993, 3, 2⟩ = .ok (trRecords 5) :=
    threeFieldLoop_step (by decide) h6
  have h4 : threeFieldLoop 1 26 ⟨1993, 2, 1⟩ ⟨1993, 3, 1⟩ = .ok (trRecords 4) :=
    threeFieldLoop_step (by decide) h5
  have h3 : threeFieldLoop 1 27 ⟨1993, 1, 31⟩ ⟨1993, 3, 1⟩ = .ok (trRecords 3) :=
    threeFieldLoop_step (by decide) h4
  have h2 : threeFieldLoop 1 28 ⟨1993, 1, 30⟩ ⟨1993, 3, 1⟩ = .ok (trRecords 2) :=
    threeFieldLoop_step (by decide) h3
  have h1 : threeFieldLoop 1 29 ⟨1993, 1, 29⟩ ⟨1993, 3, 1⟩ = .ok (trRecords 1) :=
    threeFieldLoop_step (by decide) h2
  have h0 : threeFieldLoop 1 30 ⟨1993, 1, 28⟩ ⟨1993, 2, 28⟩ = .ok (trRecords 0) :=
    threeFieldLoop_step (by decide) h1
  have hok : daily_three_field_indices_expander
      [⟨⟨1993, 1, 28⟩, some ⟨1993, 2, 28⟩, 1⟩] =
      .ok ([⟨⟨1993, 1, 28⟩, some ⟨1993, 2, 28⟩, 1⟩] ++ trRecords 0) := by
    unfold daily_three_field_indices_expander
    rw [show ([⟨⟨1993, 1, 28⟩, some ⟨1993, 2, 28⟩, 1⟩] :
        List IndicesRecord).getLast? =
      some ⟨⟨1993, 1, 28⟩, some ⟨1993, 2, 28⟩, 1⟩ from rfl]
    dsimp only
    rw [h0]
    simp only [Bind.bind, Except.bind, pure, Except.pure]
  exact @C5_strategy_b [⟨⟨1993, 1, 28⟩, some ⟨1993, 2, 28⟩, 1⟩]
    ⟨⟨1993, 1, 28⟩, some ⟨1993, 2, 28⟩, 1⟩ ⟨1993, 2, 28⟩
    ([⟨⟨1993, 1, 28⟩, some ⟨1993, 2, 28⟩, 1⟩] ++ trRecords 0)
    rfl rfl hok

/-- C4 counterexample: a non-empty input whose last record falls in
December 9999 is a valid input on which Strategy C raises ValueError
(the synthetic date would be 10000-01-01, which `datetime.date` cannot
represent) instead of returning the input plus one synthetic
record. -/
theorem C4_counterexample :
    ([⟨⟨9999, 12, 15⟩, none, 3⟩] : List IndicesRecord) ≠ [] ∧
    Date.validB ⟨9999, 12, 15⟩ = true ∧
    ipca_from_15_expander [] [⟨⟨9999, 12, 15⟩, none, 3⟩] =
      .error .valueError :=
  ⟨by decide, by decide, by decide⟩

/-- C4 (amended): on a non-empty input whose last record does not fall
in December 9999, Strategy C appends exactly one record dated the
first day of the month after the last record (December wrapping to
January of the next year); its value is the proxy head value when the
proxy head is dated the first day of the last record month, and the
last input value otherwise (mismatched head or empty proxy).  When the
last record falls in December 9999 the strategy instead raises
ValueError (see the counterexample). -/
theorem C4_strategy_c {proxy records : List IndicesRecord}
    {last : IndicesRecord} (hlast : records.getLast? = some last)
    (hv : last.date.validB = true)
    (hy : (if last.date.month = 12 then last.date.year + 1
           else last.date.year) ≤ 9999) :
    (∀ p, proxy.head? = some p →
      p.date = ⟨last.date.year, last.date.month, 1⟩ →
      ipca_from_15_expander proxy records = .ok (records ++
        [{ date := ⟨(if last.date.month = 12 then last.date.year + 1
                     else last.date.year),
                    (if last.date.month = 12 then 1
                     else last.date.month + 1), 1⟩,
           end_date := none, value := p.value }])) ∧
    (∀ p, proxy.head? = some p →
      p.date ≠ ⟨last.date.year, last.date.month, 1⟩ →
      ipca_from_15_expander proxy records = .ok (records ++
        [{ date := ⟨(if last.date.month = 12 then last.date.year + 1
                     else last.date.year),
                    (if last.date.month = 12 then 1
                     else last.date.month + 1), 1⟩,
           end_date := none, value := last.value }])) ∧
    (proxy.head? = none →
      ipca_from_15_expander proxy records = .ok (records ++
        [{ date := ⟨(if last.date.month = 12 then last.date.year + 1
                     else last.date.year),
                    (if last.date.month = 12 then 1
                     else last.date.month + 1), 1⟩,
           end_date := none, value := last.value }])) := by
  have hm := (validB_iff _).mp hv
  have hval : dateValidB
      (if last.date.month = 12 then last.date.year + 1 else last.date.year)
      (if last.date.month = 12 then 1 else last.date.month + 1) 1 = true := by
    have hpos := daysInMonth_pos
      (if last.date.month = 12 then last.date.year + 1 else last.date.year)
      (if last.date.month = 12 then 1 else last.date.month + 1)
    simp only [dateValidB, Bool.and_eq_true, decide_eq_true_eq]
    split_ifs at hy hpos ⊢ with h12 <;> omega
  unfold ipca_from_15_expander
  rw [hlast]
  dsimp only
  rw [get_next_month_eq hm.2.2.1 hm.2.2.2.1]
  simp only [Bind.bind, Except.bind]
  by_cases h12 : last.date.month = 12
  · simp only [h12]
    norm_num
    rw [if_pos (by simpa [h12] using hval)]
    refine ⟨?_, ?_, ?_⟩
    · intro p hp hpd
      rw [hp]
      dsimp only
      rw [if_pos hpd]
      rfl
    · intro p hp hpd
      rw [hp]
      dsimp only
      rw [if_neg hpd]
      rfl
    · intro hp
      rw [hp]
      rfl
  · have hne : last.date.month + 1 ≠ 1 := by omega
    simp only [if_neg h12, ne_eq, hne, not_false_eq_true, if_true]
    rw [if_pos (by simpa [if_neg h12] using hval)]
    refine ⟨?_, ?_, ?_⟩
    · intro p hp hpd
      rw [hp]
      dsimp only
      rw [if_pos hpd]
      rfl
    · intro p hp hpd
      rw [hp]
      dsimp only
      rw [if_neg hpd]
      rfl
    · intro hp
      rw [hp]
      rfl

/-- Witness for C4 at a concrete November record with a matching proxy
head. -/
theorem C4_strategy_c_witness :
    ipca_from_15_expander [⟨⟨2020, 11, 1⟩, none, 7⟩]
        [⟨⟨2020, 11, 15⟩, none, 3⟩] =
      .ok ([⟨⟨2020, 11, 15⟩, none, 3⟩] ++ [⟨⟨2020, 12, 1⟩, none, 7⟩]) :=
  (@C4_strategy_c [⟨⟨2020, 11, 1⟩, none, 7⟩] [⟨⟨2020, 11, 15⟩, none, 3⟩]
    ⟨⟨2020, 11, 15⟩, none, 3⟩ rfl (by decide) (by decide)).1
    ⟨⟨2020, 11, 1⟩, none, 7⟩ rfl rfl

/-- Lists with an empty getLast? are empty. -/
theorem getLast?_none {l : List IndicesRecord} (h : l.getLast? = none) :
    l = [] := by
  cases l with
  | nil => rfl
  | cons a t => simp [List.getLast?] at h

/-- C9: for every input series, each of the three strategies that
returns does so with a new sequence whose first len(input) elements are
exactly the input records in order; the input itself is a distinct,
untouched value (the embedding is pure, matching the code, which never
assigns to the input list or its records and returns a fresh
concatenation).  The three implications are independent: each one binds
only the success of its own strategy. -/
theorem C9_strategies_preserve_input (ws : List Date)
    (proxy records : List IndicesRecord) :
    (∀ out, daily_workday_indices_expander ws records = .ok out →
      out.take records.length = records) ∧
    (∀ out, daily_three_field_indices_expander records = .ok out →
      out.take records.length = records) ∧
    (∀ out, ipca_from_15_expander proxy records = .ok out →
      out.take records.length = records) := by
  refine ⟨?_, ?_, ?_⟩
  · intro out hA
    unfold daily_workday_indices_expander at hA
    cases hL : records.getLast? with
    | none =>
      rw [hL] at hA
      simp only [Except.ok.injEq] at hA
      rw [getLast?_none hL, ← hA]
      rfl
    | some last =>
      rw [hL] at hA
      dsimp only at hA
      cases hgw : get_extra_workdays ws last.date 30 with
      | error err =>
        rw [hgw] at hA
        exact absurd hA (by simp [Bind.bind, Except.bind])
      | ok l =>
        rw [hgw] at hA
        simp only [Bind.bind, Except.bind, pure, Except.pure,
          Except.ok.injEq] at hA
        rw [← hA]
        exact List.take_left records _
  · intro out hB
    unfold daily_three_field_indices_expander at hB
    cases hL : records.getLast? with
    | none =>
      rw [hL] at hB
      simp only [Except.ok.injEq] at hB
      rw [getLast?_none hL, ← hB]
      rfl
    | some last =>
      rw [hL] at hB
      dsimp only at hB
      cases hE : last.end_date with
      | none =>
        rw [hE] at hB
        dsimp only at hB
        exact absurd hB (by simp)
      | some e0 =>
        rw [hE] at hB
        dsimp only at hB
        cases hloop : threeFieldLoop last.value 30 last.date e0 with
        | error err =>
          rw [hloop] at hB
          exact absurd hB (by simp [Bind.bind, Except.bind])
        | ok extra =>
          rw [hloop] at hB
          simp only [Bind.bind, Except.bind, pure, Except.pure,
            Except.ok.injEq] at hB
          rw [← hB]
          exact List.take_left records _
  · intro out hC
    unfold ipca_from_15_expander at hC
    cases hL : records.getLast? with
    | none =>
      rw [hL] at hC
      simp only [Except.ok.injEq] at hC
      rw [getLast?_none hL, ← hC]
      rfl
    | some last =>
      rw [hL] at hC
      dsimp only at hC
      cases hnm : get_next_month last.date.month with
      | error err =>
        rw [hnm] at hC
        exact absurd hC (by simp [Bind.bind, Except.bind])
      | ok nm =>
        rw [hnm] at hC
        simp only [Bind.bind, Except.bind] at hC
        split_ifs at hC with h1 h2 h3
        · simp only [pure, Except.pure, Except.ok.injEq] at hC
          rw [← hC]
          exact List.take_left records _
        · simp only [pure, Except.pure, Except.ok.injEq] at hC
          rw [← hC]
          exact List.take_left records _

/-- Witness for C9: one concrete successful run of each strategy (a
one-record Selic-style series for Strategy A, the empty series for
Strategy B, a one-record IPCA series with a matching proxy for
Strategy C). -/
theorem C9_strategies_preserve_input_witness :
    (([⟨⟨2001, 1, 1⟩, none, 1⟩] ++ ((demoCalendar.drop 1).take 30).map
        (fun day => { date := day, end_date := none, value := 1 })
      : List IndicesRecord).take 1 = [⟨⟨2001, 1, 1⟩, none, 1⟩]) ∧
    (([] : List IndicesRecord).take 0 = ([] : List IndicesRecord)) ∧
    (([⟨⟨2020, 11, 15⟩, none, 3⟩] ++ [⟨⟨2020, 12, 1⟩, none, 7⟩]
      : List IndicesRecord).take 1 = [⟨⟨2020, 11, 15⟩, none, 3⟩]) :=
  ⟨(C9_strategies_preserve_input demoCalendar []
      [⟨⟨2001, 1, 1⟩, none, 1⟩]).1 _ (by decide),
    (C9_strategies_preserve_input [] [] []).2.1 [] rfl,
    (C9_strategies_preserve_input [] [⟨⟨2020, 11, 1⟩, none, 7⟩]
      [⟨⟨2020, 11, 15⟩, none, 3⟩]).2.2 _ (by decide)⟩
